import Mathlib

/-!
Verification of the NetPathMiner path-ranking and path-significance engines
(`src/PathRanker.cpp`, `src/pathScope.cpp`) against their design document.

All floating-point (`double`) quantities of the C++ code are embedded as exact
rationals (`ℚ`); comparisons and sums in the relevant code paths are order- and
sum-exact, so this is the standard shallow embedding for these algorithms.
`DBL_MAX` / `numeric_limits<double>::max()` sentinels are embedded as `none` of
an `Option` type.  Loops whose termination the C++ code does not guarantee
structurally (`while(true)` et al.) take an explicit fuel argument and return
`none` on exhaustion, which models divergence.
-/

namespace NetPathMiner

/-! ## SignificanceScorer: `computePvalue` (src/pathScope.cpp, lines 354-375)

```
double computePvalue(double score,int length,int nbSamples,double **randomScores) {
  int a,b,c;
  a=0;
  b=nbSamples-1;
  if(randomScores[length][0]>=score) {
    return 0;
  }
  while(true) {
    c=(a+b)/2;
    if(randomScores[length][c]>=score) {
      b=c;
    } else {
      a=c;
    }
    if(b==(a+1)) {
      break;
    }
  }
  return a/(double)nbSamples;
}
```
`cpLoop` embeds the `while(true)` loop: one fuel unit per iteration; the two
`if(b==(a+1))` exit checks appear once per branch of the comparison. -/

def cpLoop (row : List ℚ) (score : ℚ) : Nat → Nat → Nat → Option Nat
  | 0, _, _ => none
  | fuel+1, a, b =>
    let c := (a+b)/2
    if score ≤ row.getD c 0 then
      -- b := c; break when b == a+1
      if c = a + 1 then some a else cpLoop row score fuel a c
    else
      -- a := c; break when b == a+1
      if b = c + 1 then some c else cpLoop row score fuel c b

/-- `computePvalue` for a single sampled-score row (the row
`randomScores[length]` of the C++ code).  `none` models non-termination of the
`while(true)` loop; fuel `nbSamples` is enough whenever `nbSamples ≥ 2`
(proved below). -/
def computePvalue (score : ℚ) (nbSamples : Nat) (row : List ℚ) : Option ℚ :=
  if score ≤ row.getD 0 0 then some 0
  else (cpLoop row score nbSamples 0 (nbSamples - 1)).map
    (fun a : Nat => (a : ℚ) / (nbSamples : ℚ))

lemma cpLoop_succ (row : List ℚ) (score : ℚ) (fuel a b : Nat) :
    cpLoop row score (fuel+1) a b =
      if score ≤ row.getD ((a+b)/2) 0 then
        (if (a+b)/2 = a + 1 then some a else cpLoop row score fuel a ((a+b)/2))
      else
        (if b = (a+b)/2 + 1 then some ((a+b)/2) else cpLoop row score fuel ((a+b)/2) b) :=
  rfl

/-- Modelled from the spec (§4.4): "return an empirical p-value = (rank of the
largest sampled value strictly less than the observed score) / N"; "If the
smallest sampled value already exceeds the observed score, the p-value is 0".
The rank of a sampled value is its 0-based position in the sorted array. -/
def specPvalue (score : ℚ) (nbSamples : Nat) (row : List ℚ) : ℚ :=
  match ((List.range nbSamples).filter (fun i => decide (row.getD i 0 < score))).getLast? with
  | none => 0
  | some j => (j : ℚ) / nbSamples

lemma sorted_getD_mono {row : List ℚ} (hs : row.Sorted (· ≤ ·)) {i j : Nat}
    (hij : i ≤ j) (hj : j < row.length) : row.getD i 0 ≤ row.getD j 0 := by
  have hi : i < row.length := lt_of_le_of_lt hij hj
  rw [List.getD_eq_getElem _ _ hi, List.getD_eq_getElem _ _ hj]
  rcases eq_or_lt_of_le hij with rfl | hlt
  · exact le_refl _
  · exact hs.rel_get_of_lt (by exact hlt)

/-- The binary-search loop when every sample in `[a,b]` is strictly below the
score: the loop walks `a` up to `b-1` and returns `b-1`. -/
lemma cpLoop_allBelow (row : List ℚ) (score : ℚ) :
    ∀ fuel a b, a < b → b - a ≤ fuel →
      (∀ j, a ≤ j → j ≤ b → row.getD j 0 < score) →
      cpLoop row score fuel a b = some (b - 1) := by
  intro fuel
  induction fuel with
  | zero => intro a b hab hfuel _; omega
  | succ f ih =>
    intro a b hab hfuel hbelow
    have hc1 : a ≤ (a+b)/2 := by omega
    have hc2 : (a+b)/2 ≤ b := by omega
    have hcs : row.getD ((a+b)/2) 0 < score := hbelow _ hc1 hc2
    rw [cpLoop_succ]
    simp only [not_le.mpr hcs, if_false]
    by_cases hbreak : b = (a+b)/2 + 1
    · rw [if_pos hbreak]
      exact congrArg some (by omega)
    · rw [if_neg hbreak]
      have hb2 : a + 2 ≤ b := by omega
      exact ih ((a+b)/2) b (by omega) (by omega)
        (fun j hj1 hj2 => hbelow j (by omega) hj2)

/-- The binary-search loop under the straddle invariant `row[a] < score ≤ row[b]`:
it returns the crossover index `j` with `row[j] < score ≤ row[j+1]`. -/
lemma cpLoop_straddle (row : List ℚ) (score : ℚ) :
    ∀ fuel a b, a < b → b - a ≤ fuel →
      row.getD a 0 < score → score ≤ row.getD b 0 →
      ∃ j, cpLoop row score fuel a b = some j ∧ a ≤ j ∧ j < b ∧
        row.getD j 0 < score ∧ score ≤ row.getD (j+1) 0 := by
  intro fuel
  induction fuel with
  | zero => intro a b hab hfuel _ _; omega
  | succ f ih =>
    intro a b hab hfuel ha hb
    rw [cpLoop_succ]
    by_cases hcs : score ≤ row.getD ((a+b)/2) 0
    · rw [if_pos hcs]
      have hca : a ≠ (a+b)/2 := by
        intro h; rw [← h] at hcs; exact absurd hcs (not_le.mpr ha)
      by_cases hbreak : (a+b)/2 = a + 1
      · rw [if_pos hbreak]
        exact ⟨a, rfl, le_refl a, hab, ha, by rwa [← hbreak]⟩
      · rw [if_neg hbreak]
        obtain ⟨j, e, h1, h2, h3, h4⟩ := ih a ((a+b)/2) (by omega) (by omega) ha hcs
        exact ⟨j, e, h1, by omega, h3, h4⟩
    · rw [if_neg hcs]
      push_neg at hcs
      by_cases hbreak : b = (a+b)/2 + 1
      · rw [if_pos hbreak]
        refine ⟨(a+b)/2, rfl, by omega, by omega, hcs, ?_⟩
        rwa [← hbreak]
      · rw [if_neg hbreak]
        have hb2 : a + 2 ≤ b := by omega
        obtain ⟨j, e, h1, h2, h3, h4⟩ := ih ((a+b)/2) b (by omega) (by omega) hcs hb
        exact ⟨j, e, by omega, h2, h3, h4⟩

lemma computePvalue_nonneg {score : ℚ} {N : Nat} {row : List ℚ} {p : ℚ}
    (h : computePvalue score N row = some p) : 0 ≤ p := by
  unfold computePvalue at h
  split at h
  · simp only [Option.some.injEq] at h
    rw [← h]
  · obtain ⟨n, _, hp⟩ := Option.map_eq_some'.mp h
    have hp' : (n:ℚ) / (N:ℚ) = p := hp
    rw [← hp']
    exact div_nonneg (Nat.cast_nonneg n) (Nat.cast_nonneg N)

lemma computePvalue_eq_zero {score : ℚ} {N : Nat} {row : List ℚ}
    (h0 : score ≤ row.getD 0 0) : computePvalue score N row = some 0 := by
  unfold computePvalue
  rw [if_pos h0]

lemma computePvalue_straddle {score : ℚ} {N : Nat} {row : List ℚ}
    (hN : 2 ≤ N) (hlen : row.length = N) (hs : row.Sorted (· ≤ ·))
    (h0 : row.getD 0 0 < score) (hk : ∃ k : Nat, k < N ∧ score ≤ row.getD k 0) :
    ∃ j : Nat, computePvalue score N row = some ((j : ℚ) / N) ∧ j ≤ N - 2 ∧
      row.getD j 0 < score ∧ score ≤ row.getD (j+1) 0 ∧
      ∀ i : Nat, i < N → row.getD i 0 < score → i ≤ j := by
  obtain ⟨k, hkN, hsk⟩ := hk
  have hb : score ≤ row.getD (N-1) 0 := by
    have hk1 : k ≤ N - 1 := by omega
    have hk2 : N - 1 < row.length := by omega
    exact le_trans hsk (sorted_getD_mono hs hk1 hk2)
  obtain ⟨j, e, hja, hjb, hjlt, hjge⟩ :=
    cpLoop_straddle row score N 0 (N-1) (by omega) (by omega) h0 hb
  refine ⟨j, ?_, by omega, hjlt, hjge, ?_⟩
  · unfold computePvalue
    rw [if_neg (not_le.mpr h0), e]
    rfl
  · intro i hiN hilt
    by_contra hgt
    push_neg at hgt
    have h1 : j + 1 ≤ i := hgt
    have h2 : i < row.length := by omega
    exact absurd hilt (not_lt.mpr (le_trans hjge (sorted_getD_mono hs h1 h2)))

lemma computePvalue_allBelow {score : ℚ} {N : Nat} {row : List ℚ}
    (hN : 2 ≤ N) (hbelow : ∀ i : Nat, i < N → row.getD i 0 < score) :
    computePvalue score N row = some (((N - 2 : Nat) : ℚ) / N) := by
  have h0 : row.getD 0 0 < score := hbelow 0 (by omega)
  unfold computePvalue
  rw [if_neg (not_le.mpr h0),
    cpLoop_allBelow row score N 0 (N-1) (by omega) (by omega)
      (fun j _ hj2 => hbelow j (by omega))]
  exact congrArg some (by norm_num [Nat.sub_sub])

/-- **C10** (confirmed): under the precondition `nbSamples ≥ 2`, the binary
search loop of `computePvalue` terminates for every observed score and every
sorted ascending sample array (the bounds keep `a < b` with the gap shrinking
until `b = a + 1`); the embedded loop returns a value within fuel `nbSamples`
rather than diverging. -/
theorem C10_computePvalue_terminates (score : ℚ) (N : Nat) (row : List ℚ)
    (hN : 2 ≤ N) (hlen : row.length = N) (hs : row.Sorted (· ≤ ·)) :
    ∃ p, computePvalue score N row = some p := by
  by_cases h0 : score ≤ row.getD 0 0
  · exact ⟨0, computePvalue_eq_zero h0⟩
  · push_neg at h0
    by_cases hk : ∃ k : Nat, k < N ∧ score ≤ row.getD k 0
    · obtain ⟨j, e, _⟩ := computePvalue_straddle hN hlen hs h0 hk
      exact ⟨_, e⟩
    · push_neg at hk
      exact ⟨_, computePvalue_allBelow hN (fun i hi => hk i hi)⟩

/-- Witness for C10 at a concrete input. -/
theorem C10_witness : ∃ p, computePvalue 5 2 [(1:ℚ), 2] = some p :=
  C10_computePvalue_terminates 5 2 [(1:ℚ), 2] (by norm_num) (by decide) (by decide)

/-- **C3** counterexample: on the sorted two-sample array `[1, 2]` with
observed score `3` (every sample strictly below the score), `computePvalue`
returns `0`, while the spec's formula — rank of the largest sampled value
strictly below the score, divided by N — gives `1/2`. -/
theorem C3_counterexample :
    ([(1:ℚ), 2]).Sorted (· ≤ ·) ∧
    computePvalue 3 2 [(1:ℚ), 2] = some 0 ∧
    specPvalue 3 2 [(1:ℚ), 2] = 1/2 ∧
    computePvalue 3 2 [(1:ℚ), 2] ≠ some (specPvalue 3 2 [(1:ℚ), 2]) := by
  have hloop : cpLoop [(1:ℚ), 2] 3 2 0 1 = some 0 := by decide
  have h1 : computePvalue 3 2 [(1:ℚ), 2] = some 0 := by
    unfold computePvalue
    rw [if_neg (by norm_num), hloop]
    norm_num
  have hlast : ((List.range 2).filter
      (fun i => decide (([(1:ℚ), 2]).getD i 0 < 3))).getLast? = some 1 := by decide
  have h2 : specPvalue 3 2 [(1:ℚ), 2] = 1/2 := by
    unfold specPvalue
    rw [hlast]
    norm_num
  refine ⟨by decide, h1, h2, ?_⟩
  rw [h1, h2]
  intro hcon
  have := Option.some.inj hcon
  norm_num at this

/-- **C3** (amended): `computePvalue` returns 0 when the smallest sample is
`≥` the observed score; when some sample is `≥` the score but the smallest is
below it, it returns (0-based rank of the largest sampled value strictly below
the score)/N via binary search; when *every* sample is strictly below the
score it returns `(N-2)/N` (not `(N-1)/N` as the unamended claim requires). -/
theorem C3_computePvalue_amended (score : ℚ) (N : Nat) (row : List ℚ)
    (hN : 2 ≤ N) (hlen : row.length = N) (hs : row.Sorted (· ≤ ·)) :
    (score ≤ row.getD 0 0 → computePvalue score N row = some 0) ∧
    ((row.getD 0 0 < score ∧ ∃ k : Nat, k < N ∧ score ≤ row.getD k 0) →
      ∃ j : Nat, computePvalue score N row = some ((j : ℚ) / N) ∧
        row.getD j 0 < score ∧ score ≤ row.getD (j+1) 0 ∧
        ∀ i : Nat, i < N → row.getD i 0 < score → i ≤ j) ∧
    ((∀ i : Nat, i < N → row.getD i 0 < score) →
      computePvalue score N row = some (((N - 2 : Nat) : ℚ) / N)) := by
  refine ⟨fun h0 => computePvalue_eq_zero h0, fun h => ?_,
    fun hbelow => computePvalue_allBelow hN hbelow⟩
  obtain ⟨j, e, _, h3, h4, h5⟩ := computePvalue_straddle hN hlen hs h.1 h.2
  exact ⟨j, e, h3, h4, h5⟩

/-- Witness for the amended C3 at a concrete input. -/
theorem C3_amended_witness :
    ((2:ℚ) ≤ ([(1:ℚ), 2]).getD 0 0 → computePvalue 2 2 [(1:ℚ), 2] = some 0) ∧
    ((([(1:ℚ), 2]).getD 0 0 < 2 ∧ ∃ k : Nat, k < 2 ∧ (2:ℚ) ≤ ([(1:ℚ), 2]).getD k 0) →
      ∃ j : Nat, computePvalue 2 2 [(1:ℚ), 2] = some ((j : ℚ) / 2) ∧
        ([(1:ℚ), 2]).getD j 0 < 2 ∧ (2:ℚ) ≤ ([(1:ℚ), 2]).getD (j+1) 0 ∧
        ∀ i : Nat, i < 2 → ([(1:ℚ), 2]).getD i 0 < 2 → i ≤ j) ∧
    ((∀ i : Nat, i < 2 → ([(1:ℚ), 2]).getD i 0 < 2) →
      computePvalue 2 2 [(1:ℚ), 2] = some (((2 - 2 : Nat) : ℚ) / 2)) :=
  C3_computePvalue_amended 2 2 [(1:ℚ), 2] (by norm_num) (by decide) (by decide)

/-- **C5** counterexample: on the sorted array `[0, 2, 4]` (N = 3), the
strictly larger observed score `3` gets p-value `1/3` while the smaller
score `1` gets p-value `0`; the claimed direction (larger score ⟹ p-value
`≤` that of the smaller score) fails. -/
theorem C5_counterexample :
    ([(0:ℚ), 2, 4]).Sorted (· ≤ ·) ∧ ((1:ℚ) < 3) ∧
    computePvalue 3 3 [(0:ℚ), 2, 4] = some (1/3) ∧
    computePvalue 1 3 [(0:ℚ), 2, 4] = some 0 ∧
    ¬ ((1:ℚ)/3 ≤ 0) := by
  have hl1 : cpLoop [(0:ℚ), 2, 4] 3 3 0 2 = some 1 := by decide
  have hl2 : cpLoop [(0:ℚ), 2, 4] 1 3 0 2 = some 0 := by decide
  have h1 : computePvalue 3 3 [(0:ℚ), 2, 4] = some (1/3) := by
    unfold computePvalue
    rw [if_neg (by norm_num), hl1]
    norm_num
  have h2 : computePvalue 1 3 [(0:ℚ), 2, 4] = some 0 := by
    unfold computePvalue
    rw [if_neg (by norm_num), hl2]
    norm_num
  exact ⟨by decide, by norm_num, h1, h2, by norm_num⟩

/-- **C5** (amended): for a fixed length and the same sorted sample array of
size `N ≥ 2`, a strictly larger observed score yields a p-value *greater than
or equal to* (not `≤`) that of a smaller observed score. -/
theorem C5_computePvalue_monotone (s1 s2 : ℚ) (N : Nat) (row : List ℚ)
    (hN : 2 ≤ N) (hlen : row.length = N) (hs : row.Sorted (· ≤ ·)) (h12 : s2 < s1)
    (p1 p2 : ℚ) (h1 : computePvalue s1 N row = some p1)
    (h2 : computePvalue s2 N row = some p2) : p2 ≤ p1 := by
  have hNQ : (0:ℚ) < (N:ℚ) := by exact_mod_cast Nat.lt_of_lt_of_le (by norm_num) hN
  by_cases hA : s2 ≤ row.getD 0 0
  · have e2 := computePvalue_eq_zero (N := N) hA
    rw [e2] at h2
    have hp2 : p2 = 0 := (Option.some.inj h2).symm
    rw [hp2]
    exact computePvalue_nonneg h1
  · push_neg at hA
    have hA1 : row.getD 0 0 < s1 := lt_trans hA h12
    by_cases hk1 : ∃ k : Nat, k < N ∧ s1 ≤ row.getD k 0
    · obtain ⟨j1, e1, hj1b, hj1lt, hj1ge, hj1max⟩ :=
        computePvalue_straddle hN hlen hs hA1 hk1
      rw [e1] at h1
      have hp1 : p1 = (j1 : ℚ) / N := (Option.some.inj h1).symm
      obtain ⟨k, hkN, hks⟩ := hk1
      have hk2 : ∃ k : Nat, k < N ∧ s2 ≤ row.getD k 0 :=
        ⟨k, hkN, le_trans (le_of_lt h12) hks⟩
      obtain ⟨j2, e2, hj2b, hj2lt, hj2ge, _⟩ :=
        computePvalue_straddle hN hlen hs hA hk2
      rw [e2] at h2
      have hp2 : p2 = (j2 : ℚ) / N := (Option.some.inj h2).symm
      have hjj : j2 ≤ j1 := hj1max j2 (by omega) (lt_trans hj2lt h12)
      rw [hp1, hp2]
      exact (div_le_div_iff_of_pos_right hNQ).mpr (by exact_mod_cast hjj)
    · push_neg at hk1
      have e1 := computePvalue_allBelow hN (fun i hi => hk1 i hi)
      rw [e1] at h1
      have hp1 : p1 = ((N - 2 : Nat) : ℚ) / N := (Option.some.inj h1).symm
      by_cases hk2 : ∃ k : Nat, k < N ∧ s2 ≤ row.getD k 0
      · obtain ⟨j2, e2, hj2b, _, _, _⟩ := computePvalue_straddle hN hlen hs hA hk2
        rw [e2] at h2
        have hp2 : p2 = (j2 : ℚ) / N := (Option.some.inj h2).symm
        rw [hp1, hp2]
        exact (div_le_div_iff_of_pos_right hNQ).mpr (by exact_mod_cast hj2b)
      · push_neg at hk2
        have e2 := computePvalue_allBelow hN (fun i hi => hk2 i hi)
        rw [e2] at h2
        have hp2 : p2 = ((N - 2 : Nat) : ℚ) / N := (Option.some.inj h2).symm
        rw [hp1, hp2]

/-- Witness for the amended C5 at a concrete input. -/
theorem C5_witness :
    computePvalue 3 3 [(0:ℚ), 2, 4] = some (1/3) ∧
    computePvalue 1 3 [(0:ℚ), 2, 4] = some 0 ∧ (0:ℚ) ≤ 1/3 := by
  have hl1 : cpLoop [(0:ℚ), 2, 4] 3 3 0 2 = some 1 := by decide
  have hl2 : cpLoop [(0:ℚ), 2, 4] 1 3 0 2 = some 0 := by decide
  have h1 : computePvalue 3 3 [(0:ℚ), 2, 4] = some (1/3) := by
    unfold computePvalue
    rw [if_neg (by norm_num), hl1]
    norm_num
  have h2 : computePvalue 1 3 [(0:ℚ), 2, 4] = some 0 := by
    unfold computePvalue
    rw [if_neg (by norm_num), hl2]
    norm_num
  exact ⟨h1, h2,
    C5_computePvalue_monotone 3 1 3 [(0:ℚ), 2, 4] (by norm_num) (by decide)
      (by decide) (by norm_num) (1/3) 0 h1 h2⟩

/-! ## GraphModel (`boost::adjacency_list<vecS, vecS, bidirectionalS, ...>`)

Vertices are dense handles `0 .. n-1`; edges carry a positive real weight
(edge labels / vertex names are presentational strings that none of the
verified properties mention, so edges keep only endpoints and weight, and
vertex names live in the separate `nodes` list of the callers). Out-edges
appear in insertion order, as with `vecS` out-edge storage. -/

structure GEdge where
  src : Nat
  dst : Nat
  w   : ℚ
deriving DecidableEq

structure SGraph where
  n : Nat
  edges : List GEdge
deriving DecidableEq

/-- `adjacent_vertices(u,g)`: out-neighbours of `u` in out-edge insertion
order (one entry per parallel edge, as in boost). -/
def adjList (g : SGraph) (u : Nat) : List Nat :=
  (g.edges.filter (fun e => e.src == u)).map (fun e => e.dst)

/-- `get(edge_weight,g)[edge(u,v,g).first]`: the weight of the *first* edge
`u → v` (0 when no such edge exists — the C++ code never evaluates this case
on a well-formed run, since `edge(u,v,g).second` would be false). -/
def weightOf (g : SGraph) (u v : Nat) : ℚ :=
  ((g.edges.find? (fun e => e.src == u && e.dst == v)).map (fun e => e.w)).getD 0

/-- `remove_edge(u, v, g)`: removes every edge `u → v`. -/
def remove_edge (g : SGraph) (u v : Nat) : SGraph :=
  ⟨g.n, g.edges.filter (fun e => !(e.src == u && e.dst == v))⟩

/-- `clear_vertex(v, g)`: removes every edge incident to `v` (the vertex
handle itself remains, as in boost with `vecS`). -/
def clear_vertex (g : SGraph) (v : Nat) : SGraph :=
  ⟨g.n, g.edges.filter (fun e => !(e.src == v || e.dst == v))⟩

/-! ## ShortestPathEngine: `dijkstra_algorithm` and `st_shortest_path`
(src/PathRanker.cpp lines 104-169, identical copy in src/pathScope.cpp)

`distance` entries are `Option ℚ` with `none` standing for the
`DBL_MAX` "infinite" sentinel; `predecessor` entries start at 0
(`vector<Vertex> predecessor(n)` value-initialises to zero).  The
`relaxed_heap` pops, among the not-yet-popped vertices, one with minimal
current distance; the heap's tie order is unspecified in the source
(spec §9 documents this non-determinism), and the embedding resolves ties
toward the smallest vertex handle. -/

structure DijkstraState where
  dist : List (Option ℚ)
  pred : List Nat
deriving DecidableEq

/-- Strict comparison of distances with `none` as the `DBL_MAX` sentinel. -/
def distLtB : Option ℚ → Option ℚ → Bool
  | some a, some b => decide (a < b)
  | some _, none => true
  | none, _ => false

/-- Extract-min over the remaining heap members: the earliest (smallest
handle) vertex of minimal current distance. -/
def pickMin (dist : List (Option ℚ)) : List Nat → Option Nat
  | [] => none
  | v :: rest =>
    match pickMin dist rest with
    | none => some v
    | some u => if distLtB (dist.getD u none) (dist.getD v none) then some u else some v

/-- One edge relaxation `if(distance[v] > distance[u] + weight) update`;
when `distance[u]` is the sentinel the right-hand side is `DBL_MAX + w` and
the strict `>` test is false, so nothing updates. -/
def relaxOne (g : SGraph) (u : Nat) (st : DijkstraState) (v : Nat) : DijkstraState :=
  match st.dist.getD u none with
  | none => st
  | some du =>
    let rhs := du + weightOf g u v
    match st.dist.getD v none with
    | none => ⟨st.dist.set v (some rhs), st.pred.set v u⟩
    | some dv => if rhs < dv then ⟨st.dist.set v (some rhs), st.pred.set v u⟩ else st

def relaxAll (g : SGraph) (u : Nat) (st : DijkstraState) : DijkstraState :=
  (adjList g u).foldl (relaxOne g u) st

/-- The main heap loop: every vertex is pushed once and popped once, so the
loop runs exactly `n` iterations (`k` counts them down). -/
def dijkstraLoop (g : SGraph) : Nat → List Nat → DijkstraState → DijkstraState
  | 0, _, st => st
  | k+1, remaining, st =>
    match pickMin st.dist remaining with
    | none => st
    | some u => dijkstraLoop g k (remaining.erase u) (relaxAll g u st)

def dijkstra_algorithm (g : SGraph) (s : Nat) : DijkstraState :=
  dijkstraLoop g g.n (List.range g.n)
    ⟨(List.range g.n).map (fun i => if i = s then some 0 else none),
     List.replicate g.n 0⟩

/-- The reconstruction loop `for(v=t; v!=s; v=predecessor[v]) push_front(v)`,
then `push_front(s)`.  A cyclic predecessor chain would make the C++ loop run
forever; fuel `n+1` covers every simple chain and `none` models divergence. -/
def reconstruct (pred : List Nat) (s : Nat) : Nat → Nat → List Nat → Option (List Nat)
  | 0, _, _ => none
  | fuel+1, v, acc =>
    if v = s then some (s :: acc)
    else reconstruct pred s fuel (pred.getD v 0) (v :: acc)

structure PathDev where
  sequence : List Nat
  score : Option ℚ
  deviation : Nat
deriving DecidableEq

def st_shortest_path (s t : Nat) (g : SGraph) : Option PathDev :=
  let st := dijkstra_algorithm g s
  match st.dist.getD t none with
  | none => some ⟨[], none, 0⟩
  | some d => (reconstruct st.pred s (g.n + 1) t []).map (fun seq => ⟨seq, some d, 0⟩)

/-! ## KShortestPathRanker: `pathranker` (src/PathRanker.cpp lines 177-298) -/

/-- `equal_first_i_nodes(seq1, seq2, i)`: the C++ compares `seq1[0..i]` with
`seq2[0..i]` by raw deque indexing; when `seq1` is shorter than `i+1` the C++
read is out of bounds, which the embedding renders as a mismatch (`take`
yields a shorter list). -/
def equal_first_i_nodes (seq1 seq2 : List Nat) (i : Nat) : Bool :=
  seq1.take (i+1) == seq2.take (i+1)

/-- A stored result path as marshalled by `store_path_R`: the interior
vertex handles (source and sink popped off), the per-edge weights, and the
total distance.  (Vertex/edge label strings are presentation-only and are
not modelled.)  Returns `none` (`R_NilValue`) when nothing remains. -/
structure EmitRec where
  genes : List Nat
  weights : List ℚ
  distance : ℚ
deriving DecidableEq

def store_path_R (seq : List Nat) (g : SGraph) (score : ℚ) : Option EmitRec :=
  let mid := (seq.drop 1).dropLast
  if mid.isEmpty then none
  else some ⟨mid,
    (List.range (mid.length - 1)).map (fun i => weightOf g (mid.getD i 0) (mid.getD (i+1) 0)),
    score⟩

/-- Comparison `compare(x,y) = x.score < y.score` on the sentinel-aware
scores. -/
def pathLtB (x y : PathDev) : Bool := distLtB x.score y.score

/-- `sort(candidates.begin(), candidates.end(), compare)`: `std::sort` is
unstable and its tie order is unspecified; the embedding fixes the
documented non-determinism by stable insertion sort on the same strict
comparison. -/
def sortCands (cands : List PathDev) : List PathDev :=
  cands.insertionSort (fun x y => (!(pathLtB y x)) = true)

/-- One deviation-search iteration (loop body over `i`) of the Yen–Lawler
search: threads the accumulated prefix and score, and collects newly inserted
candidates.  `none` bubbles up a diverging shortest-path reconstruction. -/
def devStep (g : SGraph) (t : Nat) (result : List PathDev) (p : PathDev)
    (st : List Nat × ℚ × List PathDev) (i : Nat) :
    Option (List Nat × ℚ × List PathDev) :=
  let pfx := st.1
  let acc := st.2.1
  let cands := st.2.2
  let seqi := p.sequence.getD i 0
  let seqi1 := p.sequence.getD (i+1) 0
  let next := fun (newCands : List PathDev) =>
    some (pfx ++ [seqi], acc + weightOf g seqi seqi1, newCands)
  if p.deviation ≤ i then
    let gc1 := result.foldl (fun gc r =>
      if equal_first_i_nodes r.sequence p.sequence i then
        remove_edge gc (r.sequence.getD i 0) (r.sequence.getD (i+1) 0)
      else gc) g
    let gc2 := (List.range i).foldl (fun gc j => clear_vertex gc (p.sequence.getD j 0)) gc1
    match st_shortest_path seqi t gc2 with
    | none => none
    | some q =>
      match q.score with
      | none => next cands
      | some qs =>
        if q.sequence.isEmpty then
          next (cands ++ [⟨q.sequence, some qs, i⟩])
        else
          next (cands ++ [⟨pfx ++ q.sequence, some (qs + acc), i⟩])
  else next cands

def processDeviations (g : SGraph) (t : Nat) (result : List PathDev) (p : PathDev) :
    Option (List PathDev) :=
  ((List.range (p.sequence.length - 1)).foldlM (devStep g t result p) ([], 0, [])).map
    (fun st => st.2.2)

/-- State of the `while (rsize < K)` loop.  `emitted` holds, in order, the
entries written into `all_paths` (`rsize = emitted.length`); `trace` records
every popped candidate together with whether the acceptance filter emitted
it, for stating filter properties. -/
structure YenState where
  candidates : List PathDev
  result : List PathDev
  emitted : List (Option EmitRec)
  trace : List (PathDev × Bool)
deriving DecidableEq

def yenLoop (g : SGraph) (t : Nat) (K mps : Nat) :
    Nat → YenState → Option YenState
  | 0, _ => none
  | fuel+1, st =>
    if st.emitted.length < K then
      if st.candidates.isEmpty then some st
      else
        -- sort ascending by score, trim the pool to `K - rsize + 1`, pop the head
        match (if K - st.emitted.length + 1 < (sortCands st.candidates).length
               then (sortCands st.candidates).take (K - st.emitted.length + 1)
               else sortCands st.candidates) with
        | [] => some st
        | p :: rest =>
          match p.score with
          | none =>
            -- sentinel score: `result.push_back(p)` then break
            some ⟨rest, st.result ++ [p], st.emitted, st.trace ++ [(p, false)]⟩
          | some sc =>
            match processDeviations g t (st.result ++ [p]) p with
            | none => none
            | some newCands =>
              yenLoop g t K mps fuel
                ⟨rest ++ newCands, st.result ++ [p],
                 (if mps < p.sequence.length && decide (2 * weightOf g
                      (p.sequence.getD 0 0) (p.sequence.getD 1 0) < sc)
                  then st.emitted ++ [store_path_R p.sequence g sc] else st.emitted),
                 st.trace ++ [(p, mps < p.sequence.length && decide (2 * weightOf g
                      (p.sequence.getD 0 0) (p.sequence.getD 1 0) < sc))]⟩
    else some st

/-- `R_get_st_graph_from` / `SCOPE_R_get_st_graph_from`: builds the graph
from the node-name list and the 1-based parallel edge arrays; `s`/`t` are the
positions of the reserved names (`numeric_limits<Vertex>::max()`, i.e.
absence, is `none`; when a name repeats the last occurrence wins, as the scan
overwrites). -/
def findLastIdx (nodes : List String) (nm : String) : Option Nat :=
  (nodes.foldl (fun (st : Option Nat × Nat) line =>
    (if line == nm then some st.2 else st.1, st.2 + 1)) (none, 0)).1

def mkStGraph (nodes : List String) (efrom eto : List Nat) (ws : List ℚ) :
    SGraph × Option Nat × Option Nat :=
  ⟨⟨nodes.length,
    (efrom.zip (eto.zip ws)).map (fun p => ⟨p.1 - 1, p.2.1 - 1, p.2.2⟩)⟩,
   findLastIdx nodes "s", findLastIdx nodes "t"⟩

inductive PROut where
  | nil : PROut
  | ok (slots : List (Option EmitRec)) (trace : List (PathDev × Bool)) : PROut
deriving DecidableEq

/-- `pathranker(node_list, edge_list, edge_weights, rk, minpathsize)`:
`some .nil` is the `R_NilValue` precondition-failure return; `.ok slots tr`
carries the `all_paths` vector of length `K` (positions not reached by an
accepted path stay `none`, i.e. unset/`R_NilValue`); the outer `none` models
divergence (fuel exhaustion of the unbounded search loop). -/
def pathranker (nodes : List String) (efrom eto : List Nat) (ws : List ℚ)
    (K mps : Nat) (fuel : Nat) : Option PROut :=
  match mkStGraph nodes efrom eto ws with
  | (g, some s, some t) =>
    match st_shortest_path s t g with
    | none => none
    | some p0 =>
      (yenLoop g t K mps fuel ⟨[p0], [], [], []⟩).map (fun st =>
        PROut.ok (st.emitted ++ List.replicate (K - st.emitted.length) none) st.trace)
  | _ => some PROut.nil

lemma yenLoop_emitted_le (g : SGraph) (t K mps : Nat) :
    ∀ fuel (st st' : YenState), st.emitted.length ≤ K →
      yenLoop g t K mps fuel st = some st' → st'.emitted.length ≤ K := by
  intro fuel
  induction fuel with
  | zero => intro st st' hle h; simp [yenLoop] at h
  | succ f ih =>
    intro st st' hle h
    rw [yenLoop] at h
    split at h
    · split at h
      · exact (Option.some.inj h) ▸ hle
      · split at h
        · exact (Option.some.inj h) ▸ hle
        · split at h
          · exact (Option.some.inj h) ▸ hle
          · split at h
            · simp at h
            · refine ih _ st' ?_ h
              rename_i hlt _ _ _ _ _ _ _
              dsimp only
              split
              · simp only [List.length_append, List.length_cons, List.length_nil]
                omega
              · omega
    · exact (Option.some.inj h) ▸ hle

/-- **C9** (confirmed): whenever `pathranker` finds source and sink and its
main loop completes, the returned `all_paths` vector has length exactly `K`:
accepted paths occupy the leading positions and every position not filled by
an accepted path remains `none` (`R_NilValue`); the vector is never truncated
when fewer than `K` paths pass the filter. -/
theorem C9_pathranker_slots_length (nodes : List String) (efrom eto : List Nat)
    (ws : List ℚ) (K mps fuel : Nat) (slots : List (Option EmitRec))
    (tr : List (PathDev × Bool))
    (h : pathranker nodes efrom eto ws K mps fuel = some (PROut.ok slots tr)) :
    slots.length = K := by
  unfold pathranker at h
  split at h
  · split at h
    · exact absurd h (by simp)
    · obtain ⟨st, hrun, heq⟩ := Option.map_eq_some'.mp h
      have hlen : st.emitted.length ≤ K :=
        yenLoop_emitted_le _ _ K _ fuel _ st (by simp) hrun
      cases heq
      simp only [List.length_append, List.length_replicate]
      omega
  · exact absurd (Option.some.inj h) (by simp)

/-- Witness for C9: a graph with a single loopless s-t path and `K = 3`
returns a 3-slot vector with one accepted path and two `none` slots. -/
theorem C9_witness :
    pathranker ["s", "a", "t"] [1, 2] [2, 3] [1, 3] 3 2 2 =
      some (PROut.ok [some ⟨[1], [], 4⟩, none, none]
        [(⟨[0, 1, 2], some 4, 0⟩, true)]) ∧
    ([some (⟨[1], [], 4⟩ : EmitRec), none, none]).length = 3 := by
  have hS : mkStGraph ["s", "a", "t"] [1, 2] [2, 3] [1, 3] =
      (⟨3, [⟨0, 1, 1⟩, ⟨1, 2, 3⟩]⟩, some 0, some 2) := by decide
  have hr3 : List.range 3 = [0, 1, 2] := by decide
  have hr2 : List.range 2 = [0, 1] := by decide
  have hr1 : List.range 1 = [0] := by decide
  have hr0 : List.range 0 = [] := by decide
  have hrun : pathranker ["s", "a", "t"] [1, 2] [2, 3] [1, 3] 3 2 2 =
      some (PROut.ok [some ⟨[1], [], 4⟩, none, none]
        [(⟨[0, 1, 2], some 4, 0⟩, true)]) := by
    norm_num [pathranker, hS, st_shortest_path, dijkstra_algorithm, dijkstraLoop,
      pickMin, distLtB, relaxAll, relaxOne, adjList, weightOf, reconstruct,
      yenLoop, sortCands, pathLtB, processDeviations, devStep, equal_first_i_nodes,
      remove_edge, clear_vertex, store_path_R,
      List.insertionSort, List.orderedInsert, List.foldlM,
      List.filter_cons, List.find?_cons_of_pos, List.find?_cons_of_neg,
      hr3, hr2, hr1, hr0, List.getD, List.foldl, List.erase, List.replicate]
  exact ⟨hrun,
    C9_pathranker_slots_length ["s", "a", "t"] [1, 2] [2, 3] [1, 3] 3 2 2 _ _ hrun⟩

/-- Modelled from the spec (§4.2 step d), for comparison with the code's
filter: "a candidate is emitted to the caller only if its vertex-sequence
length (excluding source/sink) exceeds the configured minimum, AND its total
score exceeds twice the weight of its first edge". -/
def specAcceptFilter (g : SGraph) (mps : Nat) (p : PathDev) : Bool :=
  mps < p.sequence.length - 2 &&
    (match p.score with
     | some sc => decide (2 * weightOf g (p.sequence.getD 0 0) (p.sequence.getD 1 0) < sc)
     | none => false)

/-- **C4** counterexample: on the graph s→a (weight 1), a→t (weight 3) with
`minpathsize = 2`, the popped candidate `[s,a,t]` (full length 3, length 1
excluding source/sink, score 4 > 2·1) IS emitted by the code — the trace flag
is `true` and the slot is filled — although the claim's filter (length
excluding source/sink must exceed 2) rejects it. -/
theorem C4_counterexample :
    pathranker ["s", "a", "t"] [1, 2] [2, 3] [1, 3] 1 2 2 =
      some (PROut.ok [some ⟨[1], [], 4⟩] [(⟨[0, 1, 2], some 4, 0⟩, true)]) ∧
    specAcceptFilter (mkStGraph ["s", "a", "t"] [1, 2] [2, 3] [1, 3]).1 2
      ⟨[0, 1, 2], some 4, 0⟩ = false := by
  have hS : mkStGraph ["s", "a", "t"] [1, 2] [2, 3] [1, 3] =
      (⟨3, [⟨0, 1, 1⟩, ⟨1, 2, 3⟩]⟩, some 0, some 2) := by decide
  have hr3 : List.range 3 = [0, 1, 2] := by decide
  have hr2 : List.range 2 = [0, 1] := by decide
  have hr1 : List.range 1 = [0] := by decide
  have hr0 : List.range 0 = [] := by decide
  constructor
  · norm_num [pathranker, hS, st_shortest_path, dijkstra_algorithm, dijkstraLoop,
      pickMin, distLtB, relaxAll, relaxOne, adjList, weightOf, reconstruct,
      yenLoop, sortCands, pathLtB, processDeviations, devStep, equal_first_i_nodes,
      remove_edge, clear_vertex, store_path_R,
      List.insertionSort, List.orderedInsert, List.foldlM,
      List.filter_cons, List.find?_cons_of_pos, List.find?_cons_of_neg,
      hr3, hr2, hr1, hr0, List.getD, List.foldl, List.erase, List.replicate]
  · rw [hS]
    norm_num [specAcceptFilter]

lemma yenLoop_trace_inv (g : SGraph) (t K mps : Nat) :
    ∀ fuel (st st' : YenState), yenLoop g t K mps fuel st = some st' →
      ∀ p b, (p, b) ∈ st'.trace → (p, b) ∈ st.trace ∨
        b = (mps < p.sequence.length &&
          (match p.score with
           | some sc => decide (2 * weightOf g (p.sequence.getD 0 0)
               (p.sequence.getD 1 0) < sc)
           | none => false)) := by
  intro fuel
  induction fuel with
  | zero => intro st st' h; simp [yenLoop] at h
  | succ f ih =>
    intro st st' h
    rw [yenLoop] at h
    split at h
    · split at h
      · exact fun p b hm => Or.inl ((Option.some.inj h) ▸ hm)
      · split at h
        · exact fun p b hm => Or.inl ((Option.some.inj h) ▸ hm)
        · split at h
          · rename_i p1 rest1 hscore
            intro p b hm
            rw [← Option.some.inj h] at hm
            simp only [List.mem_append, List.mem_singleton] at hm
            rcases hm with hm | hm
            · exact Or.inl hm
            · right
              rw [Prod.mk.injEq] at hm
              rw [hm.2, hm.1, hscore]
              simp
          · rename_i p1 rest1 sc hscore
            split at h
            · simp at h
            · intro p b hm
              rcases ih _ st' h p b hm with hmem | hnew
              · dsimp only at hmem
                simp only [List.mem_append, List.mem_singleton] at hmem
                rcases hmem with hm' | hm'
                · exact Or.inl hm'
                · right
                  rw [Prod.mk.injEq] at hm'
                  rw [hm'.2, hm'.1, hscore]
              · exact Or.inr hnew
    · exact fun p b hm => Or.inl ((Option.some.inj h) ▸ hm)

/-- **C4** (amended): a popped candidate is emitted if and only if its *full*
vertex-sequence length — including the source and sink vertices, not
excluding them — exceeds the configured minimum path size AND its total score
exceeds twice the weight of its first edge. -/
theorem C4_filter_amended (nodes : List String) (efrom eto : List Nat)
    (ws : List ℚ) (K mps fuel : Nat) (slots : List (Option EmitRec))
    (tr : List (PathDev × Bool))
    (h : pathranker nodes efrom eto ws K mps fuel = some (PROut.ok slots tr)) :
    ∀ p b, (p, b) ∈ tr →
      (b = true ↔ (mps < p.sequence.length ∧ ∃ sc, p.score = some sc ∧
        2 * weightOf (mkStGraph nodes efrom eto ws).1
          (p.sequence.getD 0 0) (p.sequence.getD 1 0) < sc)) := by
  unfold pathranker at h
  split at h
  · rename_i g s t hg
    split at h
    · exact absurd h (by simp)
    · obtain ⟨st, hrun, heq⟩ := Option.map_eq_some'.mp h
      have htr : tr = st.trace := by cases heq; rfl
      intro p b hm
      rw [htr] at hm
      rcases yenLoop_trace_inv g t K mps fuel _ st hrun p b hm with hmem | hnew
      · simp at hmem
      · have hgfst : (mkStGraph nodes efrom eto ws).1 = g := by rw [hg]
        rw [hnew, hgfst]
        constructor
        · intro hb
          rw [Bool.and_eq_true] at hb
          refine ⟨by exact_mod_cast of_decide_eq_true hb.1, ?_⟩
          rcases hsc : p.score with _ | sc
          · rw [hsc] at hb
            simp at hb
          · rw [hsc] at hb
            exact ⟨sc, rfl, of_decide_eq_true hb.2⟩
        · rintro ⟨h1, sc, hsc, h2⟩
          rw [hsc, Bool.and_eq_true]
          exact ⟨by exact_mod_cast decide_eq_true h1, decide_eq_true h2⟩
  · exact absurd (Option.some.inj h) (by simp)

/-- Witness for the amended C4 at a concrete input, instantiated at the one
popped candidate of the run. -/
theorem C4_amended_witness :
    (true = true ↔ (2 < (⟨[0, 1, 2], some 4, 0⟩ : PathDev).sequence.length ∧
      ∃ sc, (⟨[0, 1, 2], some 4, 0⟩ : PathDev).score = some sc ∧
        2 * weightOf (mkStGraph ["s", "a", "t"] [1, 2] [2, 3] [1, 3]).1
          ((⟨[0, 1, 2], some 4, 0⟩ : PathDev).sequence.getD 0 0)
          ((⟨[0, 1, 2], some 4, 0⟩ : PathDev).sequence.getD 1 0) < sc)) := by
  have hS : mkStGraph ["s", "a", "t"] [1, 2] [2, 3] [1, 3] =
      (⟨3, [⟨0, 1, 1⟩, ⟨1, 2, 3⟩]⟩, some 0, some 2) := by decide
  have hr3 : List.range 3 = [0, 1, 2] := by decide
  have hr2 : List.range 2 = [0, 1] := by decide
  have hr1 : List.range 1 = [0] := by decide
  have hr0 : List.range 0 = [] := by decide
  have hrun : pathranker ["s", "a", "t"] [1, 2] [2, 3] [1, 3] 1 2 2 =
      some (PROut.ok [some ⟨[1], [], 4⟩] [(⟨[0, 1, 2], some 4, 0⟩, true)]) := by
    norm_num [pathranker, hS, st_shortest_path, dijkstra_algorithm, dijkstraLoop,
      pickMin, distLtB, relaxAll, relaxOne, adjList, weightOf, reconstruct,
      yenLoop, sortCands, pathLtB, processDeviations, devStep, equal_first_i_nodes,
      remove_edge, clear_vertex, store_path_R,
      List.insertionSort, List.orderedInsert, List.foldlM,
      List.filter_cons, List.find?_cons_of_pos, List.find?_cons_of_neg,
      hr3, hr2, hr1, hr0, List.getD, List.foldl, List.erase, List.replicate]
  exact C4_filter_amended ["s", "a", "t"] [1, 2] [2, 3] [1, 3] 1 2 2 _ _ hrun
    ⟨[0, 1, 2], some 4, 0⟩ true (List.mem_singleton.mpr rfl)

/-! ## NullScoreSampler, fallback strategy:
`computeRandomScoresRandomSampling` (src/pathScope.cpp lines 327-345)

Randomness: `runif(a,b)` draws are supplied by an oracle `stream : Nat → ℚ`
of uniform variates in `[0,1)`, with `runif(a,b) = a + u·(b−a)`; the draw
index of each call is computed from the loop counters (the loops consume
draws in a fixed order).  `(int)floor(·)` is `Int.floor` followed by `toNat`
(the C cast; the value is non-negative for in-range draws). -/

def runifF (stream : Nat → ℚ) (k : Nat) (a b : ℚ) : ℚ := a + stream k * (b - a)

def crsrsIdx (nbIterations i iter j : Nat) : Nat :=
  nbIterations * (i * (i + 1) / 2) + iter * (i + 1) + j

def computeRandomScoresRandomSampling (maxlength nbEdges nbIterations : Nat)
    (weights : List ℚ) (stream : Nat → ℚ) : List (List ℚ) :=
  (List.range maxlength).map (fun i =>
    (List.range nbIterations).map (fun iter =>
      ((List.range (i+1)).map (fun j =>
        weights.getD (Int.toNat (Int.floor
          (runifF stream (crsrsIdx nbIterations i iter j) 0 ((nbEdges : ℚ) - 1)))) 0)).foldl
        (· + ·) 0))

/-! ## ScopeEngine: `st_shortestPvalue_path` (src/pathScope.cpp lines 411-640)

The score matrix initialises to `-1.0` (sentinel for "unset", tested with
`> -0.5`); the predecessor matrix is allocated with `new int[n]` and never
initialised — unset cells are modelled as 0 and are only ever read along
chains the invariants keep well-formed.  The unused
`st_shortest_path(s,t,g)` call at the top of the C++ function has no
observable effect and is not modelled.  Writes beyond the `n × n` matrix
extent (possible in C++ when `maximumPathLength ≥ n`, a heap overflow) are
dropped by `List.set`. -/

def mget (m : List (List α)) (i j : Nat) (d : α) : α := (m.getD i []).getD j d

def mset (m : List (List α)) (i j : Nat) (x : α) : List (List α) :=
  m.set i ((m.getD i []).set j x)

/-- The no-loop check: walk the predecessor chain of `(ci, cl)` back to the
source, failing when the candidate next vertex `vindex` appears as a
predecessor.  Note the walk never compares `vindex` against `ci` itself. -/
def noLoopWalk (pathsM : List (List Nat)) (sindex vindex : Nat) :
    Nat → Nat → Nat → Option Bool
  | 0, _, _ => none
  | fuel+1, ci, cl =>
    if ci = sindex then some true
    else
      if mget pathsM ci cl 0 = vindex then some false
      else noLoopWalk pathsM sindex vindex fuel (mget pathsM ci cl 0) (cl - 1)

/-- Relaxation of one edge `(u,v)` at a given length:
`if ((noLoop==1) && ((scoresMatrix[v][length+1] > rhs) ||
(scoresMatrix[v][length+1] < -0.5))) update`. -/
def spvRelax (g : SGraph) (sindex : Nat) (len : Nat)
    (mats : List (List ℚ) × List (List Nat)) (u v : Nat) :
    Option (List (List ℚ) × List (List Nat)) :=
  match noLoopWalk mats.2 sindex v (len+1) u len with
  | none => none
  | some noLoop =>
    if noLoop ∧ (mget mats.1 u len (-1) + weightOf g u v < mget mats.1 v (len+1) (-1) ∨
        mget mats.1 v (len+1) (-1) < -(1/2)) then
      some (mset mats.1 v (len+1) (mget mats.1 u len (-1) + weightOf g u v),
        mset mats.2 v (len+1) u)
    else some mats

def spvRelaxU (g : SGraph) (sindex : Nat) (len : Nat)
    (mats : List (List ℚ) × List (List Nat)) (u : Nat) :
    Option (List (List ℚ) × List (List Nat)) :=
  if -(1/2) < mget mats.1 u len (-1) then
    (adjList g u).foldlM (fun m v => spvRelax g sindex len m u v) mats
  else some mats

/-- One pass of the outer vertex loop at a fixed length. -/
def spvLen (g : SGraph) (sindex : Nat) (len : Nat)
    (mats : List (List ℚ) × List (List Nat)) :
    Option (List (List ℚ) × List (List Nat)) :=
  (List.range g.n).foldlM (fun m u => spvRelaxU g sindex len m u) mats

def spvDP (g : SGraph) (sindex : Nat) (maxLen : Nat)
    (mats0 : List (List ℚ) × List (List Nat)) :
    Option (List (List ℚ) × List (List Nat)) :=
  (List.range maxLen).foldlM (fun m len => spvLen g sindex len m) mats0

def spvInit (n : Nat) (sindex : Nat) : List (List ℚ) × List (List Nat) :=
  (mset ((List.range n).map (fun _ => List.replicate n (-1))) sindex 0 0,
   (List.range n).map (fun _ => List.replicate n 0))

/-- The path-display reconstruction walk: collects the predecessor chain of
the target, source first (the C++ `push_front` deque build). -/
def spvWalk (pathsM : List (List Nat)) (sindex : Nat) :
    Nat → Nat → Nat → Option (List Nat)
  | 0, _, _ => none
  | fuel+1, ci, cl =>
    if ci = sindex then some []
    else
      match spvWalk pathsM sindex fuel (mget pathsM ci cl 0) (cl - 1) with
      | none => none
      | some rest => some (rest ++ [mget pathsM ci cl 0])

/-- A recorded scope path: `pathSeq` is the full vertex-handle sequence from
the source to the queried target (the C++ marshals `pathSeq.drop 1` as
`genes`); `pweights` are the consecutive edge weights along
`pathSeq.drop 1`; plus the total score and the p-value. -/
structure SPRec where
  pathSeq : List Nat
  pweights : List ℚ
  distance : ℚ
  pvalue : ℚ
deriving DecidableEq

def consecWeights (g : SGraph) (vs : List Nat) : List ℚ :=
  (List.range (vs.length - 1)).map (fun i => weightOf g (vs.getD i 0) (vs.getD (i+1) 0))

/-- The p-value/record loop `for(length=0; length<maximumPathLength; length++)`:
records (and stops at) the first length whose positive score is significant;
abandons the scan once a p-value exceeds 0.1; otherwise tries the next
length.  Inner `none` (`R_NilValue`) means nothing was recorded. -/
def spvRecord (g : SGraph) (sindex tindex : Nat) (nbSamples : Nat)
    (randomScores : List (List ℚ)) (alpha : ℚ)
    (mats : List (List ℚ) × List (List Nat)) :
    Nat → Nat → Option (Option SPRec)
  | 0, _ => some none
  | steps+1, length =>
    if 0 < mget mats.1 tindex length (-1) then
      match computePvalue (mget mats.1 tindex length (-1)) nbSamples
          (randomScores.getD length []) with
      | none => none
      | some pv =>
        if pv < alpha then
          match spvWalk mats.2 sindex (length+1) tindex length with
          | none => none
          | some chain =>
            some (some ⟨chain ++ [tindex],
              consecWeights g (chain.drop 1 ++ [tindex]),
              mget mats.1 tindex length (-1), pv⟩)
        else if 1/10 < pv then some none
        else spvRecord g sindex tindex nbSamples randomScores alpha mats steps (length+1)
    else spvRecord g sindex tindex nbSamples randomScores alpha mats steps (length+1)

def st_shortestPvalue_path (s t : Nat) (g : SGraph) (maximumPathLength nbSamples : Nat)
    (randomScores : List (List ℚ)) (alpha : ℚ) : Option (Option SPRec) :=
  match spvDP g s maximumPathLength (spvInit g.n s) with
  | none => none
  | some mats =>
    spvRecord g s t nbSamples randomScores alpha mats maximumPathLength 0

/-! ## ScopeEngine: `scope` (src/pathScope.cpp lines 648-756) -/

/-- `nt` as counted by `SCOPE_R_get_st_graph_from`: edges whose 0-based
destination equals `t` (when `t` is absent the C++ compares against
`(int)SIZE_MAX = -1`). -/
def scopeNt (eto : List Nat) (tO : Option Nat) : Nat :=
  (eto.filter (fun x => (x : Int) - 1 == (match tO with | some t => (t : Int) | none => -1))).length

structure ScopeOut where
  paths : List (Option SPRec)
  scopeNames : List String
deriving DecidableEq

/-- The target-enumeration loop: for every vertex and every out-edge into the
sink, process the unique targets (deduplicated by vertex name), filling the
`allpaths` slot `vectid` for each significant target. -/
def scopeLoop (g : SGraph) (nodes : List String) (s t : Nat)
    (maximumPathLength nbSamples : Nat) (randomScores : List (List ℚ))
    (alpha : ℚ) (nt : Nat) : Option (List (Option SPRec) × List String) :=
  ((List.range g.n).foldlM (fun st u =>
    (adjList g u).foldlM (fun (st : List (Option SPRec) × List String × Nat) a =>
      if a = t then
        if st.2.1.contains (nodes.getD u "") then some (st.1, st.2.1, st.2.2 + 1)
        else
          match st_shortestPvalue_path s u g maximumPathLength nbSamples
              randomScores alpha with
          | none => none
          | some none => some (st.1, st.2.1, st.2.2 + 1)
          | some (some r) =>
            some (st.1.set st.2.2 (some r), st.2.1 ++ [nodes.getD u ""], st.2.2 + 1)
      else some st) st)
    (List.replicate nt none, [], 0)).map (fun st => (st.1, st.2.1))

/-- `scope(node_list, edge_list, edge_weights, SAMPLEDPATHS, ALPHA, ECHO)`.
`sampled = some (numberPathSamples, columns)` is a provided `SAMPLEDPATHS`
matrix (`randomScores[i]` = column `i`); `none` triggers the random-edge
fallback sampler, which runs *before* the source/sink presence check, as in
the C++.  The `ECHO` flag only prints and is not modelled.  The inner `none`
is the `R_NilValue` precondition-failure return. -/
def scope (nodes : List String) (efrom eto : List Nat) (ws : List ℚ)
    (sampled : Option (Nat × List (List ℚ))) (alpha : ℚ) (stream : Nat → ℚ) :
    Option (Option ScopeOut) :=
  match mkStGraph nodes efrom eto ws with
  | (g, sO, tO) =>
    match (match sampled with
           | some (nr, cols) => (cols.length, nr, cols)
           | none => (g.n, 10000,
               computeRandomScoresRandomSampling g.n g.edges.length 10000 ws stream)) with
    | (maximumPathLength, nbSamples, randomScores) =>
      match sO, tO with
      | some s, some t =>
        (scopeLoop g nodes s t maximumPathLength nbSamples randomScores alpha
          (scopeNt eto tO)).map (fun st => some ⟨st.1, st.2⟩)
      | _, _ => some none

set_option maxHeartbeats 8000000 in
/-- **C1**: the scope engine's loop check walks the predecessor chain but
never compares the candidate vertex against the current vertex itself, so a
self-loop edge `u→u` (spec §3: "self-loops not expected but not explicitly
forbidden") survives the check: on the graph s→u, u→u, u→t (all weights 1)
with sampled columns making length 1 non-significant (p = 1/10 ≥ α = 1/20)
and length 2 significant (p = 0), the recorded path is `[s, u, u]` — vertex
handle 1 occurs twice, violating the loopless invariant the code's own
comment ("must verify first if there is no loop") promises. -/
theorem C1_scope_selfloop_repeats_vertex :
    scope ["s", "u", "x", "t"] [1, 2, 2] [2, 2, 4] [1, 1, 1]
        (some (10, [List.replicate 10 0,
          [0, 0, 2, 2, 2, 2, 2, 2, 2, 2], List.replicate 10 3]))
        (1/20) (fun _ => 0) =
      some (some ⟨[some ⟨[0, 1, 1], [1], 2, 0⟩], ["u"]⟩) ∧
    ¬ ([0, 1, 1] : List Nat).Nodup := by
  have hS : mkStGraph ["s", "u", "x", "t"] [1, 2, 2] [2, 2, 4] [1, 1, 1] =
      (⟨4, [⟨0, 1, 1⟩, ⟨1, 1, 1⟩, ⟨1, 3, 1⟩]⟩, some 0, some 3) := by decide
  have hr10 : List.range 10 = [0, 1, 2, 3, 4, 5, 6, 7, 8, 9] := by decide
  have hr4 : List.range 4 = [0, 1, 2, 3] := by decide
  have hr3 : List.range 3 = [0, 1, 2] := by decide
  have hr2 : List.range 2 = [0, 1] := by decide
  have hr1 : List.range 1 = [0] := by decide
  have hr0 : List.range 0 = [] := by decide
  have hL0 : spvLen ⟨4, [⟨0, 1, 1⟩, ⟨1, 1, 1⟩, ⟨1, 3, 1⟩]⟩ 0 0 (spvInit 4 0) =
      some ([[0, -1, -1, -1], [-1, 1, -1, -1], [-1, -1, -1, -1], [-1, -1, -1, -1]],
        [[0, 0, 0, 0], [0, 0, 0, 0], [0, 0, 0, 0], [0, 0, 0, 0]]) := by
    norm_num [spvLen, spvRelaxU, spvRelax, spvInit, noLoopWalk, mget, mset, adjList, weightOf,
      List.foldlM, List.filter_cons, List.find?_cons_of_pos, List.find?_cons_of_neg,
      hr4, List.getD, List.replicate, List.set]
  have hL1 : spvLen ⟨4, [⟨0, 1, 1⟩, ⟨1, 1, 1⟩, ⟨1, 3, 1⟩]⟩ 0 1
      ([[0, -1, -1, -1], [-1, 1, -1, -1], [-1, -1, -1, -1], [-1, -1, -1, -1]],
        [[0, 0, 0, 0], [0, 0, 0, 0], [0, 0, 0, 0], [0, 0, 0, 0]]) =
      some ([[0, -1, -1, -1], [-1, 1, 2, -1], [-1, -1, -1, -1], [-1, -1, 2, -1]],
        [[0, 0, 0, 0], [0, 0, 1, 0], [0, 0, 0, 0], [0, 0, 1, 0]]) := by
    norm_num [spvLen, spvRelaxU, spvRelax, noLoopWalk, mget, mset, adjList, weightOf,
      List.foldlM, List.filter_cons, List.find?_cons_of_pos, List.find?_cons_of_neg,
      hr4, List.getD, List.set]
  have hL2 : spvLen ⟨4, [⟨0, 1, 1⟩, ⟨1, 1, 1⟩, ⟨1, 3, 1⟩]⟩ 0 2
      ([[0, -1, -1, -1], [-1, 1, 2, -1], [-1, -1, -1, -1], [-1, -1, 2, -1]],
        [[0, 0, 0, 0], [0, 0, 1, 0], [0, 0, 0, 0], [0, 0, 1, 0]]) =
      some ([[0, -1, -1, -1], [-1, 1, 2, -1], [-1, -1, -1, -1], [-1, -1, 2, 3]],
        [[0, 0, 0, 0], [0, 0, 1, 0], [0, 0, 0, 0], [0, 0, 1, 1]]) := by
    norm_num [spvLen, spvRelaxU, spvRelax, noLoopWalk, mget, mset, adjList, weightOf,
      List.foldlM, List.filter_cons, List.find?_cons_of_pos, List.find?_cons_of_neg,
      hr4, List.getD, List.set]
  have hDP : spvDP ⟨4, [⟨0, 1, 1⟩, ⟨1, 1, 1⟩, ⟨1, 3, 1⟩]⟩ 0 3 (spvInit 4 0) =
      some ([[0, -1, -1, -1], [-1, 1, 2, -1], [-1, -1, -1, -1], [-1, -1, 2, 3]],
        [[0, 0, 0, 0], [0, 0, 1, 0], [0, 0, 0, 0], [0, 0, 1, 1]]) := by
    rw [spvDP, hr3]
    simp only [List.foldlM_cons, List.foldlM_nil, hL0, Option.bind_eq_bind,
      Option.some_bind, hL1, hL2, Option.pure_def]
  have hSPP : st_shortestPvalue_path 0 1 ⟨4, [⟨0, 1, 1⟩, ⟨1, 1, 1⟩, ⟨1, 3, 1⟩]⟩ 3 10
      [[0, 0, 0, 0, 0, 0, 0, 0, 0, 0], [0, 0, 2, 2, 2, 2, 2, 2, 2, 2],
        [3, 3, 3, 3, 3, 3, 3, 3, 3, 3]] (1/20) =
      some (some ⟨[0, 1, 1], [1], 2, 0⟩) := by
    rw [st_shortestPvalue_path, hDP]
    norm_num [spvRecord, spvWalk, mget, computePvalue, cpLoop, consecWeights,
      weightOf, List.find?_cons_of_pos, List.find?_cons_of_neg,
      hr2, hr1, hr0, List.getD]
  constructor
  · norm_num [scope, hS, scopeNt, scopeLoop, hSPP, adjList, weightOf,
      List.foldlM, List.filter_cons, List.find?_cons_of_pos, List.find?_cons_of_neg,
      hr10, hr4, hr3, hr2, hr1, hr0, List.getD, List.replicate, List.set]
  · decide

lemma findLastIdx_eq_none {nodes : List String} {nm : String} :
    findLastIdx nodes nm = none ↔ nm ∉ nodes := by
  unfold findLastIdx
  suffices h : ∀ (acc : Option Nat) (i : Nat),
      (nodes.foldl (fun (st : Option Nat × Nat) line =>
        (if line == nm then some st.2 else st.1, st.2 + 1)) (acc, i)).1 = none ↔
      (acc = none ∧ nm ∉ nodes) by
    simpa using h none 0
  induction nodes with
  | nil => intro acc i; simp
  | cons hd tl ih =>
    intro acc i
    simp only [List.foldl_cons]
    rw [ih]
    by_cases hhd : hd = nm
    · simp [hhd]
    · simp only [beq_iff_eq, hhd, if_false, List.mem_cons]
      constructor
      · rintro ⟨h1, h2⟩
        exact ⟨h1, fun hc => hc.elim (fun he => hhd he.symm) h2⟩
      · rintro ⟨h1, h2⟩
        exact ⟨h1, fun hc => h2 (Or.inr hc)⟩

/-- **C8** (confirmed): when the reserved source name `"s"` or sink name
`"t"` is absent from the vertex list, both `pathranker` and `scope` report
the precondition failure to the caller and return the empty result
(`R_NilValue`); no ranking/scope computation happens.  (In `scope` with
`SAMPLEDPATHS` absent the fallback sampler does run before the check, but
its output is discarded and the returned value is still `R_NilValue`.) -/
theorem C8_missing_source_or_sink (nodes : List String) (efrom eto : List Nat)
    (ws : List ℚ) (K mps fuel : Nat) (sampled : Option (Nat × List (List ℚ)))
    (alpha : ℚ) (stream : Nat → ℚ)
    (h : "s" ∉ nodes ∨ "t" ∉ nodes) :
    pathranker nodes efrom eto ws K mps fuel = some PROut.nil ∧
    scope nodes efrom eto ws sampled alpha stream = some none := by
  constructor
  · unfold pathranker mkStGraph
    rcases h with h | h
    · rw [findLastIdx_eq_none.mpr h]
    · rw [findLastIdx_eq_none.mpr h]
      cases findLastIdx nodes "s" <;> rfl
  · unfold scope mkStGraph
    rcases h with h | h
    · rw [findLastIdx_eq_none.mpr h]
    · rw [findLastIdx_eq_none.mpr h]
      all_goals cases findLastIdx nodes "s" <;> rfl

/-- Witness for C8 at a concrete input (no vertex named "s"). -/
theorem C8_witness :
    pathranker ["a", "t"] [] [] [] 5 0 3 = some PROut.nil ∧
    scope ["a", "t"] [] [] [] none 1 (fun _ => 0) = some none :=
  C8_missing_source_or_sink ["a", "t"] [] [] [] 5 0 3 none 1 (fun _ => 0)
    (Or.inl (by decide))

/-! ## NullScoreSampler, Metropolis strategy: `computeRandomScores`
(src/pathScope.cpp lines 197-317) and `samplepaths` (lines 824-872)

The C++ works with log-probabilities
(`logProposalPathProbability -= log(nbValidNeighbours)`, a final
`-= log(1 - nbFailures/currentSampleSize)` correction) and accepts when
`runif(0,1) < exp(logCurrent - logProposal)`.  In exact arithmetic this is
`u < wCurrent / wProposal` for the positive rational walk weights carried
multiplicatively here; the `DBL_MAX` initialisation of
`logCurrentPathProbability` (whose `exp` difference overflows to `+inf`, so
the comparison always accepts) is the `none` sentinel.  The two inner
rejection loops (`while(validPath==0)` and `while(validVertexFound==0)`)
are genuinely unbounded and carry fuels `fa` and `fn`. -/

def nbValid (g : SGraph) (cur : Nat) (visited : List Nat) : Nat :=
  ((adjList g cur).filter (fun v => !(visited.contains v))).length

/-- The `while(validVertexFound==0)` retry loop: draw a neighbour uniformly
from the full out list, add its edge weight to the proposal score (the C++
adds the weight *before* the loop check, so rejected draws still
contribute), retry while the drawn neighbour was already visited. -/
def pickNbr (g : SGraph) (stream : Nat → ℚ) (cur : Nat) (visited : List Nat) :
    Nat → Nat → ℚ → Option (Nat × ℚ × Nat)
  | 0, _, _ => none
  | fuel+1, k, ps =>
    if visited.contains ((adjList g cur).getD
        (Int.toNat (Int.floor (runifF stream k 0 ((adjList g cur).length : ℚ)))) 0) then
      pickNbr g stream cur visited fuel (k+1)
        (ps + weightOf g cur ((adjList g cur).getD
          (Int.toNat (Int.floor (runifF stream k 0 ((adjList g cur).length : ℚ)))) 0))
    else
      some ((adjList g cur).getD
          (Int.toNat (Int.floor (runifF stream k 0 ((adjList g cur).length : ℚ)))) 0,
        ps + weightOf g cur ((adjList g cur).getD
          (Int.toNat (Int.floor (runifF stream k 0 ((adjList g cur).length : ℚ)))) 0),
        k+1)

/-- The walk-building `for(i=0;i<length;i++)` loop.  The boolean is
`validPath`: a vertex with *no out-edges at all* breaks the loop with the
partial walk still counted valid (the C++ `break` without setting
`validPath=0`), while a vertex whose neighbours were all visited is a dead
end (`validPath=0`). -/
def mtSteps (g : SGraph) (stream : Nat → ℚ) (fn : Nat) :
    Nat → Nat → List Nat → ℚ → ℚ → Nat → Option (Bool × ℚ × ℚ × Nat)
  | 0, _, _, ps, pw, k => some (true, ps, pw, k)
  | steps+1, cur, visited, ps, pw, k =>
    if (adjList g cur).length = 0 then some (true, ps, pw, k)
    else if 0 < nbValid g cur visited then
      match pickNbr g stream cur visited fn k ps with
      | none => none
      | some (nbr, ps2, k2) =>
        mtSteps g stream fn steps nbr (visited ++ [nbr]) ps2
          (pw / (nbValid g cur visited : ℚ)) k2
    else some (false, ps, pw, k)

/-- One pass of the `while(validPath==0)` body: uniform random start vertex,
then the walk-building loop. -/
def mtAttempt (g : SGraph) (stream : Nat → ℚ) (fn : Nat)
    (nbVertices length k : Nat) : Option (Bool × ℚ × ℚ × Nat) :=
  mtSteps g stream fn length
    (Int.toNat (Int.floor (runifF stream k 0 (nbVertices : ℚ))))
    [Int.toNat (Int.floor (runifF stream k 0 (nbVertices : ℚ)))] 0 1 (k+1)

/-- The `while(validPath==0)` rejection loop; failures bump `nbFailures`. -/
def mtBuild (g : SGraph) (stream : Nat → ℚ) (fn : Nat) (nbVertices length : Nat) :
    Nat → Nat → Nat → Option (ℚ × ℚ × Nat × Nat)
  | 0, _, _ => none
  | fa+1, k, nf =>
    match mtAttempt g stream fn nbVertices length k with
    | none => none
    | some (true, ps, pw, k2) => some (ps, pw, k2, nf)
    | some (false, _, _, k2) => mtBuild g stream fn nbVertices length fa k2 (nf+1)

structure MtState where
  curScore : ℚ
  curW : Option ℚ
  nbFailures : Nat
  row : List ℚ
  k : Nat
deriving DecidableEq

/-- `if(nbFailures<currentSampleSize)
logProposalPathProbability -= log(1.0 - nbFailures/currentSampleSize)`. -/
def mtCorrect (pw0 : ℚ) (nf css : Nat) : ℚ :=
  if nf < css then pw0 / (1 - (nf : ℚ) / (css : ℚ)) else pw0

/-- `runif(0,1) < exp(logCurrentPathProbability - logProposalPathProbability)`. -/
def mtAccept (stream : Nat → ℚ) (curW : Option ℚ) (k : Nat) (pw : ℚ) : Bool :=
  match curW with
  | none => true
  | some cw => decide (runifF stream k 0 1 < cw / pw)

/-- One iteration of `for(iterator=1;iterator<=nbWarmingSteps*nbSamples;...)`:
build a proposal walk, apply the failure correction, Metropolis-accept or
keep the retained sample, and on non-warming iterations
(`iterator % nbWarmingSteps == 0`) record the retained score and reset the
retained weight to the `DBL_MAX` sentinel. -/
def mtIter (g : SGraph) (stream : Nat → ℚ) (fa fn : Nat)
    (nbVertices length nbWarmingSteps : Nat) (st : MtState) (iterator : Nat) :
    Option MtState :=
  match mtBuild g stream fn nbVertices length fa st.k st.nbFailures with
  | none => none
  | some (ps, pw0, k2, nf2) =>
    if iterator % nbWarmingSteps = 0 then
      some ⟨(if mtAccept stream st.curW k2 (mtCorrect pw0 nf2 st.row.length)
             then ps else st.curScore), none, nf2,
            st.row ++ [(if mtAccept stream st.curW k2 (mtCorrect pw0 nf2 st.row.length)
             then ps else st.curScore)], k2 + 1⟩
    else
      some ⟨(if mtAccept stream st.curW k2 (mtCorrect pw0 nf2 st.row.length)
             then ps else st.curScore),
            (if mtAccept stream st.curW k2 (mtCorrect pw0 nf2 st.row.length)
             then some (mtCorrect pw0 nf2 st.row.length) else st.curW),
            nf2, st.row, k2 + 1⟩

/-- The per-length sampling loop (`length` fixed, iterator 1 to
`nbWarmingSteps*nbSamples`), returning the recorded row and the next
stream index. -/
def computeRandomScoresRow (g : SGraph) (stream : Nat → ℚ) (fa fn : Nat)
    (nbVertices length nbSamples nbWarmingSteps k0 : Nat) :
    Option (List ℚ × Nat) :=
  (((List.range (nbWarmingSteps * nbSamples)).map (fun it => it + 1)).foldlM
    (mtIter g stream fa fn nbVertices length nbWarmingSteps)
    ⟨0, none, 0, [], k0⟩).map (fun st => (st.row, st.k))

/-- `computeRandomScores(maximumPathLength, s, g, nbSamples, nbWarmingSteps,
randomScores)`: one sampled row per length 1..maximumPathLength (the `s`
parameter of the C++ signature is unused there). -/
def computeRandomScores (g : SGraph) (stream : Nat → ℚ)
    (maximumPathLength nbSamples nbWarmingSteps fa fn : Nat) :
    Option (List (List ℚ)) :=
  ((List.range maximumPathLength).foldlM (fun (acc : List (List ℚ) × Nat) li =>
    (computeRandomScoresRow g stream fa fn g.n (li+1) nbSamples nbWarmingSteps
      acc.2).map (fun rk => (acc.1 ++ [rk.1], rk.2))) ([], 0)).map
    (fun acc => acc.1)

/-- `samplepaths(node_list, edge_list, edge_weights, MAXPATHLENGTH,
SAMPLEPATHS, WARMUPSTEPS)`: runs the Metropolis sampler and sorts each row
ascending (`std::sort`); the result gives the rows for lengths
1..maximumPathLength in order (the C++ `SCORES` buffer additionally contains
an uninitialised row 0, which no caller reads). -/
def samplepaths (nodes : List String) (efrom eto : List Nat) (ws : List ℚ)
    (maximumPathLength nbSamples nbWarmingSteps : Nat) (stream : Nat → ℚ)
    (fa fn : Nat) : Option (List (List ℚ)) :=
  (computeRandomScores (mkStGraph nodes efrom eto ws).1 stream maximumPathLength
    nbSamples nbWarmingSteps fa fn).map
    (fun rows => rows.map (fun row => row.insertionSort (· ≤ ·)))

/-! ## C6 and C7: the samplers -/

lemma mtIter_row_length {g : SGraph} {stream : Nat → ℚ} {fa fn nbV len W : Nat}
    {st st' : MtState} {iterator : Nat}
    (h : mtIter g stream fa fn nbV len W st iterator = some st') :
    st'.row.length = st.row.length + (if iterator % W = 0 then 1 else 0) := by
  unfold mtIter at h
  split at h
  · simp at h
  · split at h
    · rename_i hmod
      injection h with h
      subst h
      simp [hmod]
    · rename_i hmod
      injection h with h
      subst h
      simp [hmod]

lemma mtFold_row_length {g : SGraph} {stream : Nat → ℚ} {fa fn nbV len W : Nat}
    (L : List Nat) (st st' : MtState)
    (h : L.foldlM (mtIter g stream fa fn nbV len W) st = some st') :
    st'.row.length = st.row.length + L.countP (fun it => decide (it % W = 0)) := by
  induction L generalizing st with
  | nil =>
    simp only [List.foldlM_nil, Option.pure_def, Option.some.injEq] at h
    subst h; simp
  | cons it L ih =>
    rw [List.foldlM_cons] at h
    cases hm : mtIter g stream fa fn nbV len W st it with
    | none => rw [hm] at h; simp at h
    | some st1 =>
      rw [hm] at h
      simp only [Option.bind_eq_bind, Option.some_bind] at h
      have h1 := mtIter_row_length hm
      have h2 := ih st1 h
      rw [h2, h1, List.countP_cons]
      by_cases hmod : it % W = 0
      · simp [hmod]
        omega
      · simp [hmod]

lemma countMult (W : Nat) :
    ∀ m : Nat, ((List.range m).map (fun it => it + 1)).countP
      (fun it => decide (it % W = 0)) = m / W
  | 0 => by simp
  | m+1 => by
    rw [List.range_succ, List.map_append, List.countP_append, countMult W m]
    simp only [List.map_cons, List.map_nil, List.countP_cons, List.countP_nil]
    rw [Nat.succ_div]
    by_cases hmod : (m + 1) % W = 0
    · rw [if_pos (Nat.dvd_iff_mod_eq_zero.mpr hmod)]
      simp [hmod]
    · rw [if_neg (fun hd => hmod (Nat.dvd_iff_mod_eq_zero.mp hd))]
      simp [hmod]

lemma computeRandomScoresRow_length {g : SGraph} {stream : Nat → ℚ}
    {fa fn nbV len N W k0 : Nat} {row : List ℚ} {k : Nat}
    (h : computeRandomScoresRow g stream fa fn nbV len N W k0 = some (row, k)) :
    row.length = W * N / W := by
  unfold computeRandomScoresRow at h
  cases hf : ((List.range (W * N)).map (fun it => it + 1)).foldlM
      (mtIter g stream fa fn nbV len W) ⟨0, none, 0, [], k0⟩ with
  | none => rw [hf] at h; simp at h
  | some st =>
    rw [hf] at h
    simp only [Option.map_some', Option.some.injEq, Prod.mk.injEq] at h
    have hl := mtFold_row_length _ _ _ hf
    rw [countMult] at hl
    rw [← h.1]
    simpa using hl

lemma crsFold_rows {g : SGraph} {stream : Nat → ℚ} {N W fa fn : Nat}
    (L : List Nat) (acc acc' : List (List ℚ) × Nat)
    (h : L.foldlM (fun (acc : List (List ℚ) × Nat) li =>
      (computeRandomScoresRow g stream fa fn g.n (li+1) N W acc.2).map
        (fun rk => (acc.1 ++ [rk.1], rk.2))) acc = some acc') :
    acc'.1.length = acc.1.length + L.length ∧
      ∀ r ∈ acc'.1, r ∈ acc.1 ∨ r.length = W * N / W := by
  induction L generalizing acc with
  | nil =>
    simp only [List.foldlM_nil, Option.pure_def, Option.some.injEq] at h
    subst h
    exact ⟨by simp, fun r hr => Or.inl hr⟩
  | cons li L ih =>
    rw [List.foldlM_cons] at h
    cases hm : computeRandomScoresRow g stream fa fn g.n (li+1) N W acc.2 with
    | none => rw [hm] at h; simp at h
    | some rk =>
      rw [hm] at h
      simp only [Option.map_some', Option.bind_eq_bind, Option.some_bind] at h
      obtain ⟨h1, h2⟩ := ih _ h
      constructor
      · have hpl : (acc.1 ++ [rk.1], rk.2).1.length = acc.1.length + 1 := by simp
        rw [h1, hpl, List.length_cons]
        omega
      · intro r hr
        rcases h2 r hr with hin | hlen
        · rcases List.mem_append.mp hin with hin' | hone
          · exact Or.inl hin'
          · right
            rw [List.mem_singleton.mp hone]
            exact computeRandomScoresRow_length (k := rk.2) (by simpa using hm)
        · exact Or.inr hlen

lemma computeRandomScores_rows {g : SGraph} {stream : Nat → ℚ}
    {M N W fa fn : Nat} {rows : List (List ℚ)}
    (h : computeRandomScores g stream M N W fa fn = some rows) :
    rows.length = M ∧ ∀ r ∈ rows, r.length = W * N / W := by
  unfold computeRandomScores at h
  cases hf : (List.range M).foldlM (fun (acc : List (List ℚ) × Nat) li =>
      (computeRandomScoresRow g stream fa fn g.n (li+1) N W acc.2).map
        (fun rk => (acc.1 ++ [rk.1], rk.2))) ([], 0) with
  | none => rw [hf] at h; simp at h
  | some acc =>
    rw [hf] at h
    simp only [Option.map_some', Option.some.injEq] at h
    obtain ⟨h1, h2⟩ := crsFold_rows _ _ _ hf
    subst h
    refine ⟨by simpa using h1, fun r hr => ?_⟩
    rcases h2 r hr with hin | hlen
    · simp at hin
    · exact hlen

/-- **C6**: for every terminating `samplepaths` run with a positive warm-up
step count, the result has one row per length 1..maximumPathLength and each
row holds exactly `nbSamples` scores sorted ascending. -/
theorem C6_samplepaths_sorted_rows (nodes : List String) (efrom eto : List Nat)
    (ws : List ℚ) (M N W : Nat) (stream : Nat → ℚ) (fa fn : Nat)
    (rows : List (List ℚ)) (hW : 0 < W)
    (h : samplepaths nodes efrom eto ws M N W stream fa fn = some rows) :
    rows.length = M ∧ ∀ row ∈ rows, row.length = N ∧ row.Sorted (· ≤ ·) := by
  unfold samplepaths at h
  rw [Option.map_eq_some'] at h
  obtain ⟨rows0, hrows0, rfl⟩ := h
  obtain ⟨h1, h2⟩ := computeRandomScores_rows hrows0
  refine ⟨by simpa using h1, fun row hrow => ?_⟩
  obtain ⟨r, hr, rfl⟩ := List.mem_map.mp hrow
  constructor
  · rw [List.length_insertionSort]
    rw [h2 r hr, Nat.mul_div_cancel_left N hW]
  · exact List.sorted_insertionSort _ r


theorem C6_witness :
    (0 < 1 ∧ samplepaths ["s","t"] [1] [2] [(1:ℚ)] 1 1 1 (fun _ => (0:ℚ)) 1 1
      = some [[1]]) ∧
    ([[(1:ℚ)]].length = 1 ∧ ∀ row ∈ [[(1:ℚ)]], row.length = 1 ∧
      row.Sorted (· ≤ ·)) := by
  have hS : (mkStGraph ["s","t"] [1] [2] [(1:ℚ)]).1 = ⟨2, [⟨0, 1, 1⟩]⟩ := by
    decide
  have hr1 : List.range 1 = [0] := by decide
  have hrun : samplepaths ["s","t"] [1] [2] [(1:ℚ)] 1 1 1 (fun _ => (0:ℚ)) 1 1
      = some [[1]] := by
    norm_num [samplepaths, hS, computeRandomScores, hr1, List.foldlM_cons,
      List.foldlM_nil, computeRandomScoresRow, mtIter, mtBuild, mtAttempt,
      mtSteps, pickNbr, nbValid, adjList, weightOf, runifF, mtAccept,
      mtCorrect, List.filter_cons, List.find?_cons_of_pos, Int.floor_zero,
      Int.toNat_zero, List.getD, List.insertionSort, List.orderedInsert]
  exact ⟨⟨Nat.one_pos, hrun⟩, C6_samplepaths_sorted_rows ["s","t"] [1] [2]
    [(1:ℚ)] 1 1 1 (fun _ => (0:ℚ)) 1 1 [[1]] Nat.one_pos hrun⟩

/-- **C7** (code bug): the fallback sampler draws edge indices as
`(int)floor(runif(0, nbEdges-1))`, whose range is `0 .. nbEdges-2`: the last
edge of the weight list is never drawn.  On a 2-edge graph with weights 5 and
7, every admissible uniform stream yields the score row `[[5]]` — the weight
7 cannot appear, contradicting drawing uniformly from the full list. -/
theorem C7_fallback_never_draws_last_edge (stream : Nat → ℚ)
    (hs : ∀ k, 0 ≤ stream k ∧ stream k < 1) :
    computeRandomScoresRandomSampling 1 2 1 [(5:ℚ), 7] stream = [[5]] := by
  have h0 : ∀ k, runifF stream k 0 1 = stream k := by
    intro k
    simp [runifF]
  have hfl : ∀ k, Int.floor (stream k) = 0 := by
    intro k
    rw [Int.floor_eq_zero_iff]
    exact Set.mem_Ico.mpr ⟨(hs k).1, (hs k).2⟩
  have hr1 : List.range 1 = [0] := by decide
  norm_num [computeRandomScoresRandomSampling, hr1, h0, hfl, crsrsIdx,
    List.getD]

/-- Witness for C7: the all-zero stream is admissible and the run returns
`[[5]]`. -/
theorem C7_witness :
    (∀ _k : Nat, 0 ≤ (0:ℚ) ∧ (0:ℚ) < 1) ∧
    computeRandomScoresRandomSampling 1 2 1 [(5:ℚ), 7] (fun _ => (0:ℚ))
      = [[5]] :=
  ⟨fun _ => ⟨le_refl 0, by norm_num⟩,
   C7_fallback_never_draws_last_edge (fun _ => (0:ℚ))
     (fun _ => ⟨le_refl 0, by norm_num⟩)⟩

end NetPathMiner
